import Mathlib

/-!
Shallow embedding of the Wells Fargo tithing calculator (`app/main.py`).

Monetary values are modelled as exact rationals (`ℚ`), which is the
finite-number fragment of Python's `decimal.Decimal` (the exact-decimal
arithmetic the program relies on); special values (`Infinity`, `NaN`) and
the 28-digit context precision are outside the modelled fragment.  String
operations are modelled on the ASCII fragment (the data the program is
written for).
-/

namespace Tithing

/- The kernel can evaluate `Rat` arithmetic, but the arithmetic operations
are marked irreducible for the elaborator; re-enable reduction so that
concrete pipeline runs can be settled by `decide`. -/
set_option allowUnsafeReducibility true
attribute [semireducible] Rat.inv Rat.mul Rat.add Rat.sub Rat.neg Rat.div

/-- Python's `ROUND_HALF_UP` (ties away from zero) applied by
`Decimal.quantize(Decimal("0.01"), rounding=ROUND_HALF_UP)`: the result in
cents. -/
def halfUpCents (x : ℚ) : ℤ :=
  if 0 ≤ x then ⌊x * 100 + 1 / 2⌋ else -⌊-x * 100 + 1 / 2⌋

/-- Python's `ROUND_HALF_EVEN` (banker's rounding), the rounding used by
`f"{d:.2f}"` formatting of a `Decimal` under the default context: the result
in cents. -/
def halfEvenCents (x : ℚ) : ℤ :=
  let f := ⌊x * 100⌋
  let r := x * 100 - f
  if r < 1 / 2 then f
  else if 1 / 2 < r then f + 1
  else if f % 2 = 0 then f else f + 1

/-- Decimal digits of `n`, least significant first; first argument is fuel
(structural recursion so the kernel can evaluate it). -/
def digitsRevAux : ℕ → ℕ → List ℕ
  | 0, _ => []
  | _ + 1, 0 => []
  | fuel + 1, n => n % 10 :: digitsRevAux fuel (n / 10)

def digitsRev (n : ℕ) : List ℕ := digitsRevAux n n

/-- Value of a little-endian digit list (proof-side companion of
`digitsRev`). -/
def valRev : List ℕ → ℕ
  | [] => 0
  | d :: ds => d + 10 * valRev ds

def digitChar : ℕ → Char
  | 0 => '0' | 1 => '1' | 2 => '2' | 3 => '3' | 4 => '4'
  | 5 => '5' | 6 => '6' | 7 => '7' | 8 => '8' | _ => '9'

/-- Characters of Python's `str(n)` for a natural number. -/
def fmtNatList (n : ℕ) : List Char :=
  if n = 0 then ['0'] else ((digitsRev n).reverse).map digitChar

def fmtNat (n : ℕ) : String := String.mk (fmtNatList n)

/-- Two-digit zero-padded rendering (`%02d`) of `r < 100`. -/
def pad2List (r : ℕ) : List Char := [digitChar (r / 10 % 10), digitChar (r % 10)]

/-- Four-digit zero-padded rendering (`%04d`) of `y < 10000`. -/
def pad4List (y : ℕ) : List Char :=
  [digitChar (y / 1000 % 10), digitChar (y / 100 % 10),
   digitChar (y / 10 % 10), digitChar (y % 10)]

/-- Characters of the fixed-point rendering of `c` cents, e.g. `1234 ↦ "12.34"`. -/
def fmtCentsList (c : ℤ) : List Char :=
  (if c < 0 then ['-'] else []) ++
    fmtNatList (c.natAbs / 100) ++ '.' :: pad2List (c.natAbs % 100)

def fmtCents (c : ℤ) : String := String.mk (fmtCentsList c)

/-- Python's `f"{x:.2f}"` on a `Decimal` value: round to cents with the
default-context `ROUND_HALF_EVEN` and render with two decimal places. -/
def pyFormat2f (x : ℚ) : String := fmtCents (halfEvenCents x)

/-- Whitespace characters stripped by Python's `str.strip()` (ASCII fragment). -/
def pyWs (c : Char) : Bool :=
  c = ' ' || c = '\t' || c = '\n' || c = '\r' || c = '\x0b' || c = '\x0c'

/-- Python `str.strip()` on a character list. -/
def pyStripList (l : List Char) : List Char :=
  ((l.dropWhile pyWs).reverse.dropWhile pyWs).reverse

def pyStripStr (s : String) : String := String.mk (pyStripList s.data)

/-- ASCII lowering, the fragment of Python's `str.lower()` used by the data. -/
def lowerChar (c : Char) : Char :=
  if 'A' ≤ c && c ≤ 'Z' then Char.ofNat (c.toNat + 32) else c

def lowerStr (s : String) : String := String.mk (s.data.map lowerChar)

/-- `needle.isPrefixOf hay` on character lists. -/
def hasPre : List Char → List Char → Bool
  | [], _ => true
  | _ :: _, [] => false
  | a :: as, b :: bs => a == b && hasPre as bs

/-- Python's substring test `needle in hay` on character lists. -/
def containsList (needle : List Char) : List Char → Bool
  | [] => hasPre needle []
  | c :: t => hasPre needle (c :: t) || containsList needle t

def numVal (c : Char) : ℕ := c.toNat - 48

/-- Value of a big-endian digit-character run (how `int`/`Decimal` read digits). -/
def digitsVal (l : List Char) : ℕ := l.foldl (fun a c => a * 10 + numVal c) 0

/-- Greedy run of decimal digits (the regex `\d*`). -/
def spanDigits : List Char → List Char × List Char
  | [] => ([], [])
  | c :: t =>
    if c.isDigit then
      let p := spanDigits t
      (c :: p.1, p.2)
    else ([], c :: t)

/-- Optional leading sign of a numeric literal: the negativity flag and the
rest. -/
def splitSign (l : List Char) : Bool × List Char :=
  match l with
  | c :: t => if c = '-' then (true, t) else if c = '+' then (false, t) else (false, c :: t)
  | [] => (false, l)

/-- Exponent part of a `Decimal` literal after the `e`: `[+-]?\d+`, consuming
the whole remaining input. -/
def parseExpPart (l : List Char) : Option ℤ :=
  let p := splitSign l
  let d := spanDigits p.2
  if d.1 = [] then none
  else if d.2 = [] then some (if p.1 then -(digitsVal d.1 : ℤ) else (digitsVal d.1 : ℤ))
  else none

/-- Finite-number grammar of `decimal.Decimal(str)` (sign, digits with an
optional point, optional exponent); `Infinity`/`NaN` literals are outside the
modelled fragment. -/
def pyDecNum (l : List Char) : Option ℚ :=
  let p := splitSign l
  let ip := spanDigits p.2
  let body : Option ℚ :=
    match ip.2 with
    | [] => if ip.1 = [] then none else some (digitsVal ip.1 : ℚ)
    | c :: r2 =>
      if c = '.' then
        let fp := spanDigits r2
        if ip.1 = [] ∧ fp.1 = [] then none
        else
          match fp.2 with
          | [] => some ((digitsVal (ip.1 ++ fp.1) : ℚ) / 10 ^ fp.1.length)
          | e :: r4 =>
            if e = 'e' ∨ e = 'E' then
              match parseExpPart r4 with
              | some ex =>
                some ((digitsVal (ip.1 ++ fp.1) : ℚ) / 10 ^ fp.1.length * (10 : ℚ) ^ ex)
              | none => none
            else none
      else if (c = 'e' ∨ c = 'E') ∧ ip.1 ≠ [] then
        match parseExpPart r2 with
        | some ex => some ((digitsVal ip.1 : ℚ) * (10 : ℚ) ^ ex)
        | none => none
      else none
  match body with
  | some q => some (if p.1 then -q else q)
  | none => none

/-- `decimal.Decimal(s)` on a string: surrounding whitespace and underscores
are dropped before the numeric grammar is applied. -/
def pyDecimalOfString (s : String) : Option ℚ :=
  pyDecNum ((pyStripList s.data).filter (fun c => c ≠ '_'))

/-- The text cleaning of `parse_decimal`: `s.strip().replace(",", "")`, then
one leading `+` dropped. -/
def cleanAmount (s0 : String) : List Char :=
  let base := (pyStripList s0.data).filter (fun c => c ≠ ',')
  match base with
  | '+' :: t => t
  | _ => base

/-- `parse_decimal` from `app/main.py`: `None` normalizes to zero; otherwise
the text is stripped, commas removed, one leading `+` dropped, and handed to
`Decimal`; on failure an `HTTPException` is raised whose detail (which quotes
the cleaned text) is returned here as the error string. -/
def parse_decimal (s : Option String) : Except String ℚ :=
  match s with
  | none => .ok 0
  | some s0 =>
    match pyDecNum ((pyStripList (cleanAmount s0)).filter (fun c => c ≠ '_')) with
    | some q => .ok q
    | none => .error ("Invalid amount value: \x27" ++ String.mk (cleanAmount s0) ++ "\x27")

/-- `datetime.date`: year, month, day. -/
structure PyDate where
  year : ℕ
  month : ℕ
  day : ℕ
  deriving DecidableEq, Repr

/-- Encoding under which `datetime.date` comparison is the numeric order
(valid dates have `month ≤ 12` and `day ≤ 31`). -/
def PyDate.key (d : PyDate) : ℕ := d.year * 10000 + d.month * 100 + d.day

def isLeap (y : ℕ) : Bool := y % 4 = 0 && (y % 100 ≠ 0 || y % 400 = 0)

def daysInMonth (y m : ℕ) : ℕ :=
  if m = 2 then (if isLeap y then 29 else 28)
  else if m = 4 ∨ m = 6 ∨ m = 9 ∨ m = 11 then 30
  else 31

/-- `datetime.date(y, m, d)` validity (month range is already enforced by the
`strptime` regex; `MINYEAR = 1`, and four digits cap the year at 9999). -/
def mkDate (y m d : ℕ) : Option PyDate :=
  if 1 ≤ y ∧ d ≤ daysInMonth y m then some ⟨y, m, d⟩ else none

/-- Candidates for `strptime`'s `%m` (regex `1[0-2]|0[1-9]|[1-9]`), in the
regex's alternation order, each with the unconsumed rest. -/
def monthAlts : List Char → List (ℕ × List Char)
  | c1 :: c2 :: rest =>
    (if c1 = '1' ∧ '0' ≤ c2 ∧ c2 ≤ '2' then [(10 + numVal c2, rest)] else []) ++
    (if c1 = '0' ∧ '1' ≤ c2 ∧ c2 ≤ '9' then [(numVal c2, rest)] else []) ++
    (if '1' ≤ c1 ∧ c1 ≤ '9' then [(numVal c1, c2 :: rest)] else [])
  | [c1] => if '1' ≤ c1 ∧ c1 ≤ '9' then [(numVal c1, [])] else []
  | [] => []

/-- Candidates for `strptime`'s `%d` (regex `3[01]|[12]\d|0[1-9]|[1-9]`). -/
def dayAlts : List Char → List (ℕ × List Char)
  | c1 :: c2 :: rest =>
    (if c1 = '3' ∧ '0' ≤ c2 ∧ c2 ≤ '1' then [(30 + numVal c2, rest)] else []) ++
    (if ('1' ≤ c1 ∧ c1 ≤ '2') ∧ c2.isDigit then [(10 * numVal c1 + numVal c2, rest)] else []) ++
    (if c1 = '0' ∧ '1' ≤ c2 ∧ c2 ≤ '9' then [(numVal c2, rest)] else []) ++
    (if '1' ≤ c1 ∧ c1 ≤ '9' then [(numVal c1, c2 :: rest)] else [])
  | [c1] => if '1' ≤ c1 ∧ c1 ≤ '9' then [(numVal c1, [])] else []
  | [] => []

/-- `strptime`'s `%Y` (regex `\d\d\d\d`): exactly four digits. -/
def year4 : List Char → Option (ℕ × List Char)
  | c1 :: c2 :: c3 :: c4 :: rest =>
    if c1.isDigit && c2.isDigit && c3.isDigit && c4.isDigit then
      some (digitsVal [c1, c2, c3, c4], rest)
    else none
  | _ => none

/-- Regex-style backtracking over candidate parses: first full success wins. -/
def firstParse {α β : Type} (cands : List (α × List Char))
    (k : α → List Char → Option β) : Option β :=
  match cands with
  | [] => none
  | (v, rest) :: t =>
    match k v rest with
    | some r => some r
    | none => firstParse t k

def expectSlash (k : List Char → Option (ℕ × ℕ × ℕ)) : List Char → Option (ℕ × ℕ × ℕ)
  | '/' :: t => k t
  | _ => none

/-- `datetime.strptime(s, "%m/%d/%Y")`: the regex match with backtracking,
requiring the whole string to be consumed. -/
def parseMDY (cs : List Char) : Option (ℕ × ℕ × ℕ) :=
  firstParse (monthAlts cs) (fun m r1 =>
    expectSlash (fun r2 =>
      firstParse (dayAlts r2) (fun d r3 =>
        expectSlash (fun r4 =>
          match year4 r4 with
          | some (y, []) => some (m, d, y)
          | _ => none) r3)) r1)

/-- `parse_date` from `app/main.py`: strip, match `%m/%d/%Y`, build the date
(`none` models the raised `HTTPException`). -/
def parse_date (s : String) : Option PyDate :=
  match parseMDY (pyStripList s.data) with
  | some (m, d, y) => mkDate y m d
  | none => none

def expectDash (k : List Char → Option (ℕ × ℕ)) : List Char → Option (ℕ × ℕ)
  | '-' :: t => k t
  | _ => none

/-- Regex match of `"%Y-%m-%d"` over the whole string. -/
def parseYMDTriple (cs : List Char) : Option (ℕ × ℕ × ℕ) :=
  match year4 cs with
  | some (y, '-' :: r2) =>
    firstParse (monthAlts r2) (fun m r3 =>
      match r3 with
      | '-' :: r4 =>
        firstParse (dayAlts r4) (fun d r5 =>
          if r5 = [] then some (y, m, d) else none)
      | _ => none)
  | _ => none

/-- `datetime.strptime(s, "%Y-%m-%d").date()` for the top-level `start`/`end`
query parameters (no stripping: the raw parameter is parsed). -/
def parseYMD (s : String) : Option PyDate :=
  match parseYMDTriple s.data with
  | some (y, m, d) => mkDate y m d
  | none => none

/-- `date.isoformat()`: `YYYY-MM-DD`. -/
def isoStr (d : PyDate) : String :=
  String.mk (pad4List d.year ++ '-' :: pad2List d.month ++ '-' :: pad2List d.day)

/-- States of the `csv.reader` field/record automaton (default dialect,
non-strict). -/
inductive CsvSt
  | startRec | startField | inField | inQuoted | quotedQuote
  deriving DecidableEq

/-- One pass of `csv.reader` over the decoded text.  Arguments: fuel (one per
consumed character, so `length + 1` suffices), input, state, current field
(reversed), current record (reversed), finished records (reversed). -/
def csvAux : ℕ → List Char → CsvSt → List Char → List String → List (List String) →
    List (List String)
  | _, [], st, fld, rec, acc =>
    (match st with
     | .startRec => acc
     | _ => ((String.mk fld.reverse :: rec).reverse) :: acc).reverse
  | 0, _ :: _, _, fld, rec, acc =>
    (((String.mk fld.reverse :: rec).reverse) :: acc).reverse
  | fuel + 1, c :: rest, st, fld, rec, acc =>
    match st with
    | .startRec =>
      if c = '\n' then csvAux fuel rest .startRec [] [] ([] :: acc)
      else if c = '\r' then
        match rest with
        | '\n' :: r2 => csvAux fuel r2 .startRec [] [] ([] :: acc)
        | _ => csvAux fuel rest .startRec [] [] ([] :: acc)
      else if c = '"' then csvAux fuel rest .inQuoted [] [] acc
      else if c = ',' then csvAux fuel rest .startField [] [""] acc
      else csvAux fuel rest .inField [c] [] acc
    | .startField =>
      if c = '\n' then csvAux fuel rest .startRec [] [] ((("" :: rec).reverse) :: acc)
      else if c = '\r' then
        match rest with
        | '\n' :: r2 => csvAux fuel r2 .startRec [] [] ((("" :: rec).reverse) :: acc)
        | _ => csvAux fuel rest .startRec [] [] ((("" :: rec).reverse) :: acc)
      else if c = '"' then csvAux fuel rest .inQuoted [] rec acc
      else if c = ',' then csvAux fuel rest .startField [] ("" :: rec) acc
      else csvAux fuel rest .inField [c] rec acc
    | .inField =>
      if c = '\n' then
        csvAux fuel rest .startRec [] [] (((String.mk fld.reverse :: rec).reverse) :: acc)
      else if c = '\r' then
        match rest with
        | '\n' :: r2 =>
          csvAux fuel r2 .startRec [] [] (((String.mk fld.reverse :: rec).reverse) :: acc)
        | _ =>
          csvAux fuel rest .startRec [] [] (((String.mk fld.reverse :: rec).reverse) :: acc)
      else if c = ',' then csvAux fuel rest .startField [] (String.mk fld.reverse :: rec) acc
      else csvAux fuel rest .inField (c :: fld) rec acc
    | .inQuoted =>
      if c = '"' then csvAux fuel rest .quotedQuote fld rec acc
      else csvAux fuel rest .inQuoted (c :: fld) rec acc
    | .quotedQuote =>
      if c = '"' then csvAux fuel rest .inQuoted ('"' :: fld) rec acc
      else if c = ',' then csvAux fuel rest .startField [] (String.mk fld.reverse :: rec) acc
      else if c = '\n' then
        csvAux fuel rest .startRec [] [] (((String.mk fld.reverse :: rec).reverse) :: acc)
      else if c = '\r' then
        match rest with
        | '\n' :: r2 =>
          csvAux fuel r2 .startRec [] [] (((String.mk fld.reverse :: rec).reverse) :: acc)
        | _ =>
          csvAux fuel rest .startRec [] [] (((String.mk fld.reverse :: rec).reverse) :: acc)
      else csvAux fuel rest .inField (c :: fld) rec acc

/-- `csv.reader(io.StringIO(text))`, fully consumed. -/
def csvReader (s : String) : List (List String) :=
  csvAux (s.data.length + 1) s.data .startRec [] [] []

/-- The `utf-8-sig` decode of the upload: a leading byte-order mark is
stripped (byte-level replacement decoding is outside the text-level model). -/
def stripBOM (s : String) : String :=
  match s.data with
  | '﻿' :: t => String.mk t
  | _ => s

def enumFromIdx {α : Type} : ℕ → List α → List (ℕ × α)
  | _, [] => []
  | n, a :: t => (n, a) :: enumFromIdx (n + 1) t

/-- `iter_csv_rows` from `app/main.py` applied to the decoded records:
1-based enumeration, blank rows skipped (they still consume a line number),
short rows padded with empty fields to length 5, long rows untouched. -/
def iter_csv_rows (rows : List (List String)) : List (ℕ × List String) :=
  (enumFromIdx 1 rows).filterMap (fun p =>
    if p.2 = [] then none
    else some (p.1, p.2 ++ List.replicate (5 - p.2.length) ""))

/-- `compute_tithe` from `app/main.py`:
`(total * rate).quantize(Decimal("0.01"), rounding=ROUND_HALF_UP)`. -/
def compute_tithe (total rate : ℚ) : ℚ := (halfUpCents (total * rate) : ℚ) / 100

/-- One entry of the `matches` list: a dict of display strings. -/
structure MatchRecord where
  date : String
  amount : String
  description : String
  deriving DecidableEq, Repr

/-- The per-request configuration consumed by the row loop (`needle` is the
needle already lowered when the match is case-insensitive). -/
structure Ctx where
  start_date : PyDate
  end_date : PyDate
  needle : String
  ci : Bool
  deriving DecidableEq

/-- The loop's mutable state: `matches`, `total`, `errors`. -/
structure LoopState where
  «matches» : List MatchRecord
  total : ℚ
  errors : List String
  deriving DecidableEq

def lineMsg (n : ℕ) (detail : String) : String :=
  "Line " ++ fmtNat n ++ ": " ++ detail

def dateErrDetail (s : String) : String :=
  "Invalid date value (expected MM/DD/YYYY): \x27" ++ s ++ "\x27"

/-- The unpacking `date_str, amount_str, _, _, desc = (row + [""] * 5)[:5]`. -/
def padRow (r : List String) : List String := (r ++ List.replicate 5 "").take 5

def dateField (r : List String) : String := (padRow r).getD 0 ""

def amountField (r : List String) : String := (padRow r).getD 1 ""

def descField (r : List String) : String := (padRow r).getD 4 ""

/-- The haystack the needle is searched in: the trimmed description, lowered
when the match is case-insensitive. -/
def hayOf (ci : Bool) (desc : String) : String :=
  if ci then lowerStr (pyStripStr desc) else pyStripStr desc

/-- The body of the `for line_no, row in iter_csv_rows(data)` loop in
`tithing`: header heuristic on line 1, inclusive date-range filter,
amount normalization, positive-amount filter, substring match,
accumulation; per-row failures are appended to `errors`. -/
def processRow (ctx : Ctx) (s : LoopState) (p : ℕ × List String) : LoopState :=
  let date_str := dateField p.2
  let amount_str := amountField p.2
  let desc := descField p.2
  match parse_date date_str with
  | none =>
    if p.1 = 1 then s
    else { s with errors := s.errors ++ [lineMsg p.1 (dateErrDetail date_str)] }
  | some d =>
    if ctx.start_date.key ≤ d.key ∧ d.key ≤ ctx.end_date.key then
      match parse_decimal (some amount_str) with
      | .error detail => { s with errors := s.errors ++ [lineMsg p.1 detail] }
      | .ok amount =>
        if amount ≤ 0 then s
        else
          let description := pyStripStr desc
          let hay := if ctx.ci then lowerStr description else description
          if containsList ctx.needle.data hay.data then
            { s with
              «matches» := s.«matches» ++ [⟨isoStr d, pyFormat2f amount, description⟩],
              total := s.total + amount }
          else s
    else s

/-- The whole row loop as a fold over the decoded, enumerated rows. -/
def tithingCore (ctx : Ctx) (rows : List (List String)) : LoopState :=
  (iter_csv_rows rows).foldl (processRow ctx) ⟨[], 0, []⟩

/-- The effective needle: lowered when the match is case-insensitive. -/
def needleOf (desc_contains : String) (ci : Bool) : String :=
  if ci then lowerStr desc_contains else desc_contains

/-- The core run determined by the validated inputs: decode, enumerate and
fold. -/
def coreOf (sd ed : PyDate) (desc_contains : String) (ci : Bool) (data : String) :
    LoopState :=
  tithingCore ⟨sd, ed, needleOf desc_contains ci, ci⟩ (csvReader (stripBOM data))

/-- The `filters` echo of the JSON response. -/
structure Filters where
  start : String
  «end» : String
  desc_contains : String
  rate : ℚ
  case_insensitive : Bool
  deriving DecidableEq

/-- The JSON response body. -/
structure JsonResp where
  filters : Filters
  count : ℕ
  total_deposits : String
  tithe : String
  rows : List MatchRecord
  errors : List String
  deriving DecidableEq

/-- The CSV report: header row, one row per match, and the `TOTAL` row (the
blank separator row is part of serialization only). -/
structure CsvReport where
  header : List String
  rows : List (List String)
  totalRow : List String
  deriving DecidableEq

inductive Resp
  | json (r : JsonResp)
  | csv (r : CsvReport)
  deriving DecidableEq

instance {ε α : Type} [DecidableEq ε] [DecidableEq α] : DecidableEq (Except ε α) := fun a b =>
  match a, b with
  | .ok x, .ok y =>
    if h : x = y then .isTrue (by rw [h]) else .isFalse (fun hh => h (by cases hh; rfl))
  | .error x, .error y =>
    if h : x = y then .isTrue (by rw [h]) else .isFalse (fun hh => h (by cases hh; rfl))
  | .ok _, .error _ => .isFalse (fun hh => by cases hh)
  | .error _, .ok _ => .isFalse (fun hh => by cases hh)

/-- One data row of the CSV report: the match's display amount is re-parsed
with `Decimal` and the per-row tithe computed from it. -/
def csvRowOf (rate : ℚ) (r : MatchRecord) : List String :=
  let amt := (pyDecimalOfString r.amount).getD 0
  [r.date, pyFormat2f amt, r.description, pyFormat2f (compute_tithe amt rate)]

/-- The `tithing` endpoint of `app/main.py` (transport validation of `rate`
and `format` happens upstream; `rate` is the exact decimal value of the query
parameter).  `Except.error` models the request-level `HTTPException`s. -/
def tithing (start «end» desc_contains : String) (rate : ℚ) (case_insensitive : Bool)
    (format : String) (data : String) : Except String Resp :=
  match parseYMD start, parseYMD «end» with
  | some start_date, some end_date =>
    if end_date.key < start_date.key then .error "end must be on/after start"
    else if data = "" then .error "Empty upload"
    else
      let st := coreOf start_date end_date desc_contains case_insensitive data
      let tithe := compute_tithe st.total rate
      if format = "csv" then
        .ok (.csv
          { header := ["date", "amount", "description",
              "tithe_" ++ fmtNat (⌊rate * 100⌋).toNat ++ "pct_per_row"],
            rows := st.«matches».map (csvRowOf rate),
            totalRow := ["TOTAL", pyFormat2f st.total, "", pyFormat2f tithe] })
      else
        .ok (.json
          { filters :=
              { start := isoStr start_date, «end» := isoStr end_date,
                desc_contains := desc_contains, rate := rate,
                case_insensitive := case_insensitive },
            count := st.«matches».length,
            total_deposits := pyFormat2f st.total,
            tithe := pyFormat2f tithe,
            rows := st.«matches»,
            errors := st.errors })
  | _, _ => .error "Dates must be in YYYY-MM-DD format"

/-- Per-row outcome, match side: the `MatchRecord` a row contributes, if any
(the same predicate chain as `processRow`). -/
def matchRec (ctx : Ctx) (p : ℕ × List String) : Option MatchRecord :=
  match parse_date (dateField p.2) with
  | none => none
  | some d =>
    if ctx.start_date.key ≤ d.key ∧ d.key ≤ ctx.end_date.key then
      match parse_decimal (some (amountField p.2)) with
      | .error _ => none
      | .ok amount =>
        if amount ≤ 0 then none
        else if containsList ctx.needle.data (hayOf ctx.ci (descField p.2)).data then
          some ⟨isoStr d, pyFormat2f amount, pyStripStr (descField p.2)⟩
        else none
    else none

/-- Per-row outcome, amount side: the amount a row adds to the total, if any. -/
def amtRec (ctx : Ctx) (p : ℕ × List String) : Option ℚ :=
  match parse_date (dateField p.2) with
  | none => none
  | some d =>
    if ctx.start_date.key ≤ d.key ∧ d.key ≤ ctx.end_date.key then
      match parse_decimal (some (amountField p.2)) with
      | .error _ => none
      | .ok amount =>
        if amount ≤ 0 then none
        else if containsList ctx.needle.data (hayOf ctx.ci (descField p.2)).data then
          some amount
        else none
    else none

/-- Per-row outcome, diagnostic side: the error line a row appends, if any
(date-parse failure off line 1, or amount-parse failure in range). -/
def diagRec (ctx : Ctx) (p : ℕ × List String) : Option String :=
  match parse_date (dateField p.2) with
  | none =>
    if p.1 = 1 then none
    else some (lineMsg p.1 (dateErrDetail (dateField p.2)))
  | some d =>
    if ctx.start_date.key ≤ d.key ∧ d.key ≤ ctx.end_date.key then
      match parse_decimal (some (amountField p.2)) with
      | .error detail => some (lineMsg p.1 detail)
      | .ok _ => none
    else none

/-- The match chain with the substring stage removed (what the filter does
when the needle is empty). -/
def matchRecNoNeedle (sd ed : PyDate) (p : ℕ × List String) : Option MatchRecord :=
  match parse_date (dateField p.2) with
  | none => none
  | some d =>
    if sd.key ≤ d.key ∧ d.key ≤ ed.key then
      match parse_decimal (some (amountField p.2)) with
      | .error _ => none
      | .ok amount =>
        if amount ≤ 0 then none
        else some ⟨isoStr d, pyFormat2f amount, pyStripStr (descField p.2)⟩
    else none

/-- The CSV-report row a source row produces, phrased against the row's own
parsed amount `a`: the displayed amount is the half-even 2-decimal rendering
of `a`, and the per-row tithe is the half-up rounding of
`rate × (that displayed value)`. -/
def perRowModel (ctx : Ctx) (rate : ℚ) (p : ℕ × List String) : Option (List String) :=
  match parse_date (dateField p.2) with
  | none => none
  | some d =>
    if ctx.start_date.key ≤ d.key ∧ d.key ≤ ctx.end_date.key then
      match parse_decimal (some (amountField p.2)) with
      | .error _ => none
      | .ok amount =>
        if amount ≤ 0 then none
        else if containsList ctx.needle.data (hayOf ctx.ci (descField p.2)).data then
          some [isoStr d, fmtCents (halfEvenCents amount),
            pyStripStr (descField p.2),
            fmtCents (halfUpCents ((halfEvenCents amount : ℚ) / 100 * rate))]
        else none
    else none

/-- The `tithe` string of a JSON response, when there is one. -/
def jsonTithe : Except String Resp → Option String
  | .ok (.json r) => some r.tithe
  | _ => none

/-- The `total_deposits` string of a JSON response, when there is one. -/
def jsonTotal : Except String Resp → Option String
  | .ok (.json r) => some r.total_deposits
  | _ => none

/-- The data rows of a CSV report, when there is one. -/
def csvDataRows : Except String Resp → Option (List (List String))
  | .ok (.csv r) => some r.rows
  | _ => none

/-- The amount cell of the `TOTAL` row of a CSV report, when there is one. -/
def csvTotalAmount : Except String Resp → Option String
  | .ok (.csv r) => some (r.totalRow.getD 1 "")
  | _ => none

/-- The tithe cell of the `TOTAL` row of a CSV report, when there is one. -/
def csvTotalTithe : Except String Resp → Option String
  | .ok (.csv r) => some (r.totalRow.getD 3 "")
  | _ => none

/-! ## Lemmas -/

/-- One loop step, split into its three independent effects. -/
theorem processRow_eq (ctx : Ctx) (s : LoopState) (p : ℕ × List String) :
    processRow ctx s p =
      ⟨s.«matches» ++ (matchRec ctx p).toList,
       s.total + (amtRec ctx p).getD 0,
       s.errors ++ (diagRec ctx p).toList⟩ := by
  unfold processRow matchRec amtRec diagRec
  cases h : parse_date (dateField p.2) with
  | none => by_cases h1 : p.1 = 1 <;> simp [h, h1]
  | some d =>
    by_cases hr : ctx.start_date.key ≤ d.key ∧ d.key ≤ ctx.end_date.key
    · cases ha : parse_decimal (some (amountField p.2)) with
      | error detail => simp [h, hr, ha]
      | ok amount =>
        by_cases hz : amount ≤ 0
        · simp [h, hr, ha, hz]
        · rw [hayOf] at *
          by_cases hc : containsList ctx.needle.data
              ((if ctx.ci then lowerStr (pyStripStr (descField p.2))
                else pyStripStr (descField p.2))).data
          · simp [h, hr, ha, hz, hc]
          · simp [h, hr, ha, hz, hc]
    · simp [h, hr]

/-- The whole loop, split into its three independent effects. -/
theorem foldl_processRow (ctx : Ctx) (l : List (ℕ × List String)) (s : LoopState) :
    l.foldl (processRow ctx) s =
      ⟨s.«matches» ++ l.filterMap (matchRec ctx),
       s.total + (l.filterMap (amtRec ctx)).sum,
       s.errors ++ l.filterMap (diagRec ctx)⟩ := by
  induction l generalizing s with
  | nil => simp
  | cons p t ih =>
    rw [List.foldl_cons, processRow_eq, ih]
    cases hm : matchRec ctx p <;> cases ha : amtRec ctx p <;> cases hd : diagRec ctx p <;>
      simp [List.filterMap_cons, hm, ha, hd, add_assoc]

theorem tithingCore_matches (ctx : Ctx) (rows : List (List String)) :
    (tithingCore ctx rows).«matches» = (iter_csv_rows rows).filterMap (matchRec ctx) := by
  rw [tithingCore, foldl_processRow]; simp

theorem tithingCore_total (ctx : Ctx) (rows : List (List String)) :
    (tithingCore ctx rows).total = ((iter_csv_rows rows).filterMap (amtRec ctx)).sum := by
  rw [tithingCore, foldl_processRow]; simp

theorem tithingCore_errors (ctx : Ctx) (rows : List (List String)) :
    (tithingCore ctx rows).errors = (iter_csv_rows rows).filterMap (diagRec ctx) := by
  rw [tithingCore, foldl_processRow]; simp

/-- Formatting a value that is exactly a whole number of cents is exact:
the half-even rounding inside `f"{x:.2f}"` returns the cents unchanged. -/
theorem halfEvenCents_cents (c : ℤ) : halfEvenCents ((c : ℚ) / 100) = c := by
  have h : ((c : ℚ) / 100) * 100 = (c : ℚ) := div_mul_cancel₀ _ (by norm_num)
  simp only [halfEvenCents, h, Int.floor_intCast, sub_self]
  norm_num

theorem halfEvenCents_nonneg (x : ℚ) (hx : 0 ≤ x) : 0 ≤ halfEvenCents x := by
  have h0 : (0 : ℤ) ≤ ⌊x * 100⌋ := Int.floor_nonneg.mpr (by positivity)
  simp only [halfEvenCents]
  split
  · exact h0
  · split
    · omega
    · split <;> omega

/-- The JSON `tithe` string renders the half-up-rounded product exactly. -/
theorem pyFormat2f_compute (T rate : ℚ) :
    pyFormat2f (compute_tithe T rate) = fmtCents (halfUpCents (T * rate)) := by
  rw [pyFormat2f, compute_tithe, halfEvenCents_cents]

/-- Python's `"" in s` is always true. -/
theorem containsList_nil (h : List Char) : containsList [] h = true := by
  cases h <;> simp [containsList, hasPre]

theorem valRev_digitsRevAux : ∀ f n, n ≤ f → valRev (digitsRevAux f n) = n := by
  intro f
  induction f with
  | zero => intro n hn; interval_cases n; rfl
  | succ f ih =>
    intro n hn
    match n with
    | 0 => rfl
    | m + 1 =>
      have e : digitsRevAux (f + 1) (m + 1) =
          (m + 1) % 10 :: digitsRevAux f ((m + 1) / 10) := rfl
      rw [e, valRev, ih ((m + 1) / 10) (by omega)]
      omega

theorem digitsRevAux_lt10 : ∀ f n d, d ∈ digitsRevAux f n → d < 10 := by
  intro f
  induction f with
  | zero => intro n d hd; simp [digitsRevAux] at hd
  | succ f ih =>
    intro n d hd
    match n with
    | 0 => simp [digitsRevAux] at hd
    | m + 1 =>
      have e : digitsRevAux (f + 1) (m + 1) =
          (m + 1) % 10 :: digitsRevAux f ((m + 1) / 10) := rfl
      rw [e] at hd
      rcases List.mem_cons.mp hd with h | h
      · omega
      · exact ih _ _ h

theorem numVal_digitChar (d : ℕ) (hd : d < 10) : numVal (digitChar d) = d := by
  interval_cases d <;> rfl

theorem isDigit_digitChar (d : ℕ) : (digitChar d).isDigit = true := by
  match d with
  | 0 | 1 | 2 | 3 | 4 | 5 | 6 | 7 | 8 => rfl
  | n + 9 => rfl

theorem digitsVal_from (l : List Char) :
    ∀ acc : ℕ, l.foldl (fun a c => a * 10 + numVal c) acc =
      acc * 10 ^ l.length + digitsVal l := by
  induction l with
  | nil => intro acc; simp [digitsVal]
  | cons c t ih =>
    intro acc
    rw [digitsVal, List.foldl_cons, List.foldl_cons, ih, ih (0 * 10 + numVal c),
      List.length_cons]
    ring

theorem digitsVal_append (a b : List Char) :
    digitsVal (a ++ b) = digitsVal a * 10 ^ b.length + digitsVal b := by
  rw [digitsVal, List.foldl_append, digitsVal_from]
  rfl

theorem digitsVal_rev_map (ds : List ℕ) (hds : ∀ d ∈ ds, d < 10) :
    digitsVal ((ds.reverse).map digitChar) = valRev ds := by
  induction ds with
  | nil => rfl
  | cons d t ih =>
    have hd : d < 10 := hds d (List.mem_cons_self d t)
    have ht : ∀ x ∈ t, x < 10 := fun x hx => hds x (List.mem_cons_of_mem d hx)
    rw [valRev, List.reverse_cons, List.map_append, digitsVal_append, ih ht]
    simp [digitsVal, numVal_digitChar d hd]
    ring

theorem digitsVal_fmtNatList (n : ℕ) : digitsVal (fmtNatList n) = n := by
  by_cases h : n = 0
  · subst h; rfl
  · rw [fmtNatList, if_neg h,
      digitsVal_rev_map (digitsRev n) (fun d hd => digitsRevAux_lt10 n n d hd)]
    exact valRev_digitsRevAux n n le_rfl

theorem fmtNatList_ne_nil (n : ℕ) : fmtNatList n ≠ [] := by
  by_cases h : n = 0
  · subst h; simp [fmtNatList]
  · rw [fmtNatList, if_neg h]
    intro hc
    have h2 : (digitsRev n).reverse = [] := List.map_eq_nil_iff.mp hc
    have h2' : digitsRev n = [] := by simpa using congrArg List.reverse h2
    have h3 : valRev (digitsRev n) = n := valRev_digitsRevAux n n le_rfl
    rw [h2'] at h3
    simp [valRev] at h3
    exact h h3.symm

theorem fmtNatList_digits (n : ℕ) : ∀ c ∈ fmtNatList n, c.isDigit = true := by
  intro c hc
  by_cases h : n = 0
  · subst h; simp [fmtNatList] at hc; subst hc; rfl
  · rw [fmtNatList, if_neg h] at hc
    obtain ⟨d, _, rfl⟩ := List.mem_map.mp hc
    exact isDigit_digitChar d

theorem pad2List_digits (r : ℕ) : ∀ c ∈ pad2List r, c.isDigit = true := by
  intro c hc
  simp [pad2List] at hc
  rcases hc with rfl | rfl <;> exact isDigit_digitChar _

theorem digit_ne (c x : Char) (h : c.isDigit = true) (hx : x.isDigit = false) : c ≠ x := by
  intro he
  rw [he, hx] at h
  cases h

theorem digit_not_ws (c : Char) (h : c.isDigit = true) : pyWs c = false := by
  cases hw : pyWs c
  · rfl
  · simp only [pyWs, Bool.or_eq_true, decide_eq_true_eq] at hw
    rcases hw with ((((rfl | rfl) | rfl) | rfl) | rfl) | rfl <;> cases h

theorem dropWhile_of_false {p : Char → Bool} :
    ∀ l : List Char, (∀ c ∈ l, p c = false) → l.dropWhile p = l := by
  intro l h
  cases l with
  | nil => rfl
  | cons c t => rw [List.dropWhile_cons, h c (List.mem_cons_self c t)]; simp

theorem pyStripList_id (l : List Char) (h : ∀ c ∈ l, pyWs c = false) :
    pyStripList l = l := by
  rw [pyStripList, dropWhile_of_false l h,
    dropWhile_of_false l.reverse (fun c hc => h c (List.mem_reverse.mp hc)),
    List.reverse_reverse]

theorem splitSign_nosign (c0 : Char) (t : List Char) (h : c0.isDigit = true) :
    splitSign (c0 :: t) = (false, c0 :: t) := by
  rw [splitSign]
  rw [if_neg (digit_ne c0 '-' h (by decide)), if_neg (digit_ne c0 '+' h (by decide))]

theorem spanDigits_all (l : List Char) (h : ∀ c ∈ l, c.isDigit = true) :
    spanDigits l = (l, []) := by
  induction l with
  | nil => rfl
  | cons c t ih =>
    rw [spanDigits, if_pos (h c (List.mem_cons_self c t)),
      ih (fun x hx => h x (List.mem_cons_of_mem c hx))]

theorem spanDigits_stop (a : List Char) (ha : ∀ c ∈ a, c.isDigit = true)
    (b0 : Char) (bs : List Char) (hb : b0.isDigit = false) :
    spanDigits (a ++ b0 :: bs) = (a, b0 :: bs) := by
  induction a with
  | nil => simp [spanDigits, hb]
  | cons c t ih =>
    rw [List.cons_append, spanDigits, if_pos (ha c (List.mem_cons_self c t)),
      ih (fun x hx => ha x (List.mem_cons_of_mem c hx))]

theorem digitsVal_pad2 (r : ℕ) (hr : r < 100) : digitsVal (pad2List r) = r := by
  have e1 : numVal (digitChar (r / 10 % 10)) = r / 10 % 10 := numVal_digitChar _ (by omega)
  have e2 : numVal (digitChar (r % 10)) = r % 10 := numVal_digitChar _ (by omega)
  simp only [pad2List, digitsVal, List.foldl_cons, List.foldl_nil, e1, e2]
  omega

/-- Re-parsing a nonnegative 2-decimal display string with `Decimal` recovers
exactly the cents value: `Decimal(f"{x:.2f}")` is faithful. -/
theorem pyDecimal_fmtCents (n : ℕ) :
    pyDecimalOfString (fmtCents (n : ℤ)) = some ((n : ℚ) / 100) := by
  have hdata : (fmtCents (n : ℤ)).data = fmtNatList (n / 100) ++ '.' :: pad2List (n % 100) := by
    have hneg : ¬((n : ℤ) < 0) := by omega
    simp [fmtCents, fmtCentsList, hneg, Int.natAbs_ofNat]
  have hmem : ∀ c ∈ fmtNatList (n / 100) ++ '.' :: pad2List (n % 100),
      c.isDigit = true ∨ c = '.' := by
    intro c hc
    rcases List.mem_append.mp hc with h | h
    · exact .inl (fmtNatList_digits _ c h)
    · rcases List.mem_cons.mp h with rfl | h
      · exact .inr rfl
      · exact .inl (pad2List_digits _ c h)
  have hnws : ∀ c ∈ fmtNatList (n / 100) ++ '.' :: pad2List (n % 100), pyWs c = false := by
    intro c hc
    rcases hmem c hc with h | rfl
    · exact digit_not_ws c h
    · rfl
  have hnus : ∀ c ∈ fmtNatList (n / 100) ++ '.' :: pad2List (n % 100), c ≠ '_' := by
    intro c hc
    rcases hmem c hc with h | rfl
    · exact digit_ne c '_' h (by decide)
    · decide
  obtain ⟨c0, t0, hfq⟩ : ∃ c0 t0, fmtNatList (n / 100) = c0 :: t0 := by
    cases hq : fmtNatList (n / 100) with
    | nil => exact absurd hq (fmtNatList_ne_nil _)
    | cons c0 t0 => exact ⟨c0, t0, rfl⟩
  have hc0 : c0.isDigit = true := fmtNatList_digits (n / 100) c0 (by rw [hfq]; simp)
  have ht0 : ∀ c ∈ t0, c.isDigit = true := fun c hc =>
    fmtNatList_digits (n / 100) c (by rw [hfq]; exact List.mem_cons_of_mem c0 hc)
  have hs1 : spanDigits (c0 :: (t0 ++ '.' :: pad2List (n % 100))) =
      (c0 :: t0, '.' :: pad2List (n % 100)) := by
    rw [show c0 :: (t0 ++ '.' :: pad2List (n % 100)) =
        (c0 :: t0) ++ '.' :: pad2List (n % 100) from rfl]
    exact spanDigits_stop (c0 :: t0)
      (fun c hc => by rcases List.mem_cons.mp hc with rfl | h; exacts [hc0, ht0 c h])
      '.' (pad2List (n % 100)) (by decide)
  have hs2 : spanDigits (pad2List (n % 100)) = (pad2List (n % 100), []) :=
    spanDigits_all (pad2List (n % 100)) (pad2List_digits _)
  have hval : digitsVal ((c0 :: t0) ++ pad2List (n % 100)) = n := by
    rw [digitsVal_append, ← hfq, digitsVal_fmtNatList, digitsVal_pad2 _ (by omega)]
    simp only [pad2List, List.length_cons, List.length_nil]
    omega
  rw [pyDecimalOfString, hdata, pyStripList_id _ hnws,
    List.filter_eq_self.mpr (by intro a ha; simpa using hnus a ha)]
  rw [hfq, List.cons_append]
  simp only [pyDecNum, splitSign_nosign c0 (t0 ++ '.' :: pad2List (n % 100)) hc0, hs1, hs2]
  have hlen : (pad2List (n % 100)).length = 2 := rfl
  rw [List.cons_append] at hval
  simp [hval, hlen]
  norm_num

/-- The roundtrip stated for nonnegative integer cents. -/
theorem pyDecimal_fmtCents_int (c : ℤ) (hc : 0 ≤ c) :
    pyDecimalOfString (fmtCents c) = some ((c : ℚ) / 100) := by
  obtain ⟨n, rfl⟩ := Int.eq_ofNat_of_zero_le hc
  rw [pyDecimal_fmtCents n]
  norm_num

/-! ## Claims -/

/-- C2, counterexample: the claim says an empty amount text normalizes to
zero, but `parse_decimal` on the empty string raises the invalid-amount
`HTTPException` (only the missing value `None` normalizes to zero):
`Decimal("")` is a conversion-syntax failure. -/
theorem claim2_counterexample :
    parse_decimal (some "") = .error "Invalid amount value: \x27\x27" ∧
    parse_decimal (some "") ≠ .ok 0 := by
  decide

/-- C2, amended: a missing (`None`) amount normalizes to zero, but an amount
whose text cleans to the empty string (empty or whitespace-only text, a bare
`+`, or commas only) fails with the invalid-amount error quoting the cleaned
empty text; in the pipeline such a row is recorded as a diagnostic and
excluded, not silently skipped. -/
theorem claim2_empty_amount :
    parse_decimal none = .ok 0 ∧
    (∀ s : String, cleanAmount s = [] →
      parse_decimal (some s) = .error "Invalid amount value: \x27\x27") := by
  refine ⟨rfl, fun s h => ?_⟩
  simp only [parse_decimal, h]
  decide

/-- C2, witness at a whitespace-only amount text. -/
theorem claim2_empty_amount_witness :
    parse_decimal none = .ok 0 ∧
    parse_decimal (some " ") = .error "Invalid amount value: \x27\x27" :=
  ⟨claim2_empty_amount.1, claim2_empty_amount.2 " " (by decide)⟩

/-- C4: a data row (line ≠ 1) whose date parses into the range but whose
amount text fails `parse_decimal` only appends the diagnostic
`"Line {n}: {detail}"` (which carries the row's 1-based line number) to the
error list — matches and total are untouched — and the fold then continues
with the remaining rows from that state. -/
theorem claim4_bad_amount_diagnostic :
    ∀ (ctx : Ctx) (s : LoopState) (n : ℕ) (row : List String)
      (rest : List (ℕ × List String)) (d : PyDate) (detail : String),
      n ≠ 1 →
      parse_date (dateField row) = some d →
      ctx.start_date.key ≤ d.key → d.key ≤ ctx.end_date.key →
      parse_decimal (some (amountField row)) = .error detail →
      processRow ctx s (n, row) = { s with errors := s.errors ++ [lineMsg n detail] } ∧
      ((n, row) :: rest).foldl (processRow ctx) s =
        rest.foldl (processRow ctx) { s with errors := s.errors ++ [lineMsg n detail] } := by
  intro ctx s n row rest d detail _ hd hr1 hr2 ha
  have h1 : processRow ctx s (n, row) =
      { s with errors := s.errors ++ [lineMsg n detail] } := by
    simp only [processRow, hd, ha]
    rw [if_pos ⟨hr1, hr2⟩]
  exact ⟨h1, by rw [List.foldl_cons, h1]⟩

/-- C4, witness: the row `["09/16/2025", "abc", "*", "", "PAY"]` on line 2. -/
theorem claim4_bad_amount_diagnostic_witness :
    processRow ⟨⟨2025, 9, 1⟩, ⟨2025, 9, 30⟩, "pay", true⟩ ⟨[], 0, []⟩
        (2, ["09/16/2025", "abc", "*", "", "PAY"]) =
      ⟨[], 0, [lineMsg 2 "Invalid amount value: \x27abc\x27"]⟩ := by
  have h := (claim4_bad_amount_diagnostic ⟨⟨2025, 9, 1⟩, ⟨2025, 9, 30⟩, "pay", true⟩ ⟨[], 0, []⟩
    2 ["09/16/2025", "abc", "*", "", "PAY"] [] ⟨2025, 9, 16⟩ "Invalid amount value: \x27abc\x27"
    (by decide) (by decide) (by decide) (by decide) (by decide)).1
  rw [h]; rfl

/-- C5: a date-parse failure on the very first physical row (line 1) leaves
the loop state untouched — no diagnostic is recorded — while the same failure
on any line other than 1 appends the invalid-date diagnostic tagged with that
line number and otherwise skips the row. -/
theorem claim5_header_heuristic :
    ∀ (ctx : Ctx) (s : LoopState) (row : List String),
      parse_date (dateField row) = none →
      processRow ctx s (1, row) = s ∧
      (∀ n : ℕ, n ≠ 1 →
        processRow ctx s (n, row) =
          { s with errors := s.errors ++ [lineMsg n (dateErrDetail (dateField row))] }) := by
  intro ctx s row h
  refine ⟨by simp [processRow, h], fun n hn => by simp [processRow, h, hn]⟩

/-- C5, witness: the header row `["Date", "Amount", "Type", "Category",
"Description"]` on line 1 (silent) and on line 2 (diagnostic). -/
theorem claim5_header_heuristic_witness :
    processRow ⟨⟨2025, 9, 1⟩, ⟨2025, 9, 30⟩, "pay", true⟩ ⟨[], 0, []⟩
        (1, ["Date", "Amount", "Type", "Category", "Description"]) = ⟨[], 0, []⟩ ∧
    processRow ⟨⟨2025, 9, 1⟩, ⟨2025, 9, 30⟩, "pay", true⟩ ⟨[], 0, []⟩
        (2, ["Date", "Amount", "Type", "Category", "Description"]) =
      ⟨[], 0, [lineMsg 2 (dateErrDetail "Date")]⟩ := by
  have h := claim5_header_heuristic ⟨⟨2025, 9, 1⟩, ⟨2025, 9, 30⟩, "pay", true⟩ ⟨[], 0, []⟩
    ["Date", "Amount", "Type", "Category", "Description"] (by decide)
  exact ⟨h.1, by rw [h.2 2 (by decide)]; rfl⟩

/-- C6: the match list is exactly the in-order image of the decoded,
enumerated rows under the per-row match function `matchRec` (date parses, date
within the inclusive range, amount strictly positive, needle contained in the
haystack under the case rule): every qualifying row contributes exactly one
record, at its source position, so the list preserves source row order. -/
theorem claim6_match_list :
    ∀ (ctx : Ctx) (rows : List (List String)),
      (tithingCore ctx rows).«matches» = (iter_csv_rows rows).filterMap (matchRec ctx) :=
  fun ctx rows => tithingCore_matches ctx rows

/-- C1: on every successful run, the reported tithe (JSON `tithe` string and
the tithe cell of the CSV `TOTAL` row) is the exact-decimal product
`total * rate` rounded to 2 decimals with round-half-up (`halfUpCents` rounds
ties away from zero, not to even), for any rate in `[0, 1]`; in particular a
single deposit of 1234.565 at rate 0.10 reports `"123.46"`. -/
theorem claim1_tithe_half_up :
    (∀ (start endQ desc : String) (rate : ℚ) (ci : Bool) (data : String) (sd ed : PyDate),
      parseYMD start = some sd → parseYMD endQ = some ed →
      ¬ ed.key < sd.key → data ≠ "" → 0 ≤ rate → rate ≤ 1 →
      jsonTithe (tithing start endQ desc rate ci "json" data) =
        some (fmtCents (halfUpCents ((coreOf sd ed desc ci data).total * rate))) ∧
      csvTotalTithe (tithing start endQ desc rate ci "csv" data) =
        some (fmtCents (halfUpCents ((coreOf sd ed desc ci data).total * rate)))) ∧
    jsonTithe (tithing "2025-09-01" "2025-09-30" "PAY" (1 / 10) true "json"
        "09/15/2025,1234.565,*,,PAY\n") = some "123.46" ∧
    (coreOf ⟨2025, 9, 1⟩ ⟨2025, 9, 30⟩ "PAY" true "09/15/2025,1234.565,*,,PAY\n").total =
      1234565 / 1000 := by
  refine ⟨fun start endQ desc rate ci data sd ed hs he hlt hne _ _ => ⟨?_, ?_⟩,
    by decide, by decide⟩
  · simp only [tithing, hs, he, if_neg hlt, if_neg hne]
    rw [if_neg (show ¬ ("json" : String) = "csv" by decide)]
    simp [jsonTithe, pyFormat2f_compute]
  · simp only [tithing, hs, he, if_neg hlt, if_neg hne]
    simp only [if_true]
    simp [csvTotalTithe, pyFormat2f_compute]

/-- C1, witness at the spec's concrete scenario (total 1234.565, rate 0.10). -/
theorem claim1_tithe_half_up_witness :
    jsonTithe (tithing "2025-09-01" "2025-09-30" "PAY" (1 / 10) true "json"
        "09/15/2025,1234.565,*,,PAY\n") =
      some (fmtCents (halfUpCents
        ((coreOf ⟨2025, 9, 1⟩ ⟨2025, 9, 30⟩ "PAY" true
            "09/15/2025,1234.565,*,,PAY\n").total * (1 / 10)))) :=
  (claim1_tithe_half_up.1 "2025-09-01" "2025-09-30" "PAY" (1 / 10) true
    "09/15/2025,1234.565,*,,PAY\n" ⟨2025, 9, 1⟩ ⟨2025, 9, 30⟩
    (by decide) (by decide) (by decide) (by decide) (by decide) (by decide)).1

/-- C7: an unparseable `start` or `end` bound, an end date before the start
date, or an empty upload makes `tithing` return a request-level error: no
row is processed and no partial result is produced. -/
theorem claim7_request_rejection :
    ∀ (start endQ desc : String) (rate : ℚ) (ci : Bool) (fmt data : String),
      (parseYMD start = none ∨ parseYMD endQ = none ∨
        (∃ sd ed, parseYMD start = some sd ∧ parseYMD endQ = some ed ∧ ed.key < sd.key) ∨
        data = "") →
      ∃ e, tithing start endQ desc rate ci fmt data = .error e := by
  intro start endQ desc rate ci fmt data h
  rcases h with h | h | ⟨sd, ed, hs, he, hlt⟩ | h
  · refine ⟨"Dates must be in YYYY-MM-DD format", ?_⟩
    cases he2 : parseYMD endQ <;> simp [tithing, h, he2]
  · refine ⟨"Dates must be in YYYY-MM-DD format", ?_⟩
    cases hs2 : parseYMD start <;> simp [tithing, h, hs2]
  · exact ⟨"end must be on/after start", by simp [tithing, hs, he, hlt]⟩
  · subst h
    cases hs2 : parseYMD start with
    | none =>
      refine ⟨"Dates must be in YYYY-MM-DD format", ?_⟩
      cases he2 : parseYMD endQ <;> simp [tithing, hs2, he2]
    | some sd =>
      cases he2 : parseYMD endQ with
      | none => exact ⟨"Dates must be in YYYY-MM-DD format", by simp [tithing, hs2, he2]⟩
      | some ed =>
        by_cases hlt : ed.key < sd.key
        · exact ⟨"end must be on/after start", by simp [tithing, hs2, he2, hlt]⟩
        · exact ⟨"Empty upload", by simp [tithing, hs2, he2, hlt]⟩

/-- C7, witness: an empty upload with otherwise valid parameters. -/
theorem claim7_request_rejection_witness :
    ∃ e, tithing "2025-09-01" "2025-09-30" "PAY" (1 / 10) true "json" "" = .error e :=
  claim7_request_rejection "2025-09-01" "2025-09-30" "PAY" (1 / 10) true "json" ""
    (.inr (.inr (.inr rfl)))

/-- C8: a row whose parsed date is exactly the start bound or exactly the end
bound — and which passes the amount and needle stages — contributes its match
record: the date range is inclusive at both ends. -/
theorem claim8_boundary_inclusive :
    ∀ (ctx : Ctx) (rows : List (List String)) (p : ℕ × List String) (d : PyDate) (a : ℚ),
      ctx.start_date.key ≤ ctx.end_date.key →
      p ∈ iter_csv_rows rows →
      parse_date (dateField p.2) = some d →
      (d = ctx.start_date ∨ d = ctx.end_date) →
      parse_decimal (some (amountField p.2)) = .ok a →
      ¬ a ≤ 0 →
      containsList ctx.needle.data (hayOf ctx.ci (descField p.2)).data = true →
      (⟨isoStr d, pyFormat2f a, pyStripStr (descField p.2)⟩ : MatchRecord) ∈
        (tithingCore ctx rows).«matches» := by
  intro ctx rows p d a hse hmem hd hbd ha hpos hcon
  have hrange : ctx.start_date.key ≤ d.key ∧ d.key ≤ ctx.end_date.key := by
    rcases hbd with rfl | rfl
    · exact ⟨le_rfl, hse⟩
    · exact ⟨hse, le_rfl⟩
  have hm : matchRec ctx p = some ⟨isoStr d, pyFormat2f a, pyStripStr (descField p.2)⟩ := by
    simp [matchRec, hd, hrange, ha, hpos, hcon]
  rw [tithingCore_matches]
  exact List.mem_filterMap.mpr ⟨p, hmem, hm⟩

/-- C8, witness: a deposit dated exactly on the start bound. -/
theorem claim8_boundary_inclusive_witness :
    (⟨isoStr ⟨2025, 9, 1⟩, pyFormat2f (10 : ℚ), pyStripStr "PAY"⟩ : MatchRecord) ∈
      (tithingCore ⟨⟨2025, 9, 1⟩, ⟨2025, 9, 30⟩, "pay", true⟩
        [["09/01/2025", "10.00", "*", "", "PAY"]]).«matches» :=
  claim8_boundary_inclusive ⟨⟨2025, 9, 1⟩, ⟨2025, 9, 30⟩, "pay", true⟩
    [["09/01/2025", "10.00", "*", "", "PAY"]]
    (1, ["09/01/2025", "10.00", "*", "", "PAY"]) ⟨2025, 9, 1⟩ 10
    (by decide) (by decide) (by decide) (.inl rfl) (by decide) (by decide) (by decide)

/-- C9: with an empty needle the substring stage never rejects: the match
list is exactly the rows that pass the date-parse, inclusive-range and
positive-amount stages (`matchRecNoNeedle` is that chain with the substring
test removed). -/
theorem claim9_empty_needle :
    ∀ (sd ed : PyDate) (ci : Bool) (rows : List (List String)),
      (tithingCore ⟨sd, ed, needleOf "" ci, ci⟩ rows).«matches» =
        (iter_csv_rows rows).filterMap (matchRecNoNeedle sd ed) := by
  intro sd ed ci rows
  have hn : needleOf "" ci = "" := by cases ci <;> rfl
  rw [tithingCore_matches]
  apply List.filterMap_congr
  intro p _
  have he : ("" : String).data = [] := rfl
  cases hd : parse_date (dateField p.2) with
  | none => simp [matchRec, matchRecNoNeedle, hd]
  | some d =>
    by_cases hr : sd.key ≤ d.key ∧ d.key ≤ ed.key
    · cases ha : parse_decimal (some (amountField p.2)) with
      | error detail => simp [matchRec, matchRecNoNeedle, hd, hr, ha, hn]
      | ok a =>
        by_cases hz : a ≤ 0
        · simp [matchRec, matchRecNoNeedle, hd, hr, ha, hz, hn]
        · simp [matchRec, matchRecNoNeedle, hd, hr, ha, hz, hn, he, containsList_nil]
    · simp [matchRec, matchRecNoNeedle, hd, hr, hn]

/-- C10: on every successful run the displayed total (JSON `total_deposits`
and the amount cell of the CSV `TOTAL` row) is the exact total formatted with
round-half-even (`halfEvenCents`), not round-half-up; a total of 0.125 (a tie
at the third decimal) displays as `"0.12"` while round-half-up would give
`"0.13"`. -/
theorem claim10_total_half_even :
    (∀ (start endQ desc : String) (rate : ℚ) (ci : Bool) (data : String) (sd ed : PyDate),
      parseYMD start = some sd → parseYMD endQ = some ed →
      ¬ ed.key < sd.key → data ≠ "" →
      jsonTotal (tithing start endQ desc rate ci "json" data) =
        some (fmtCents (halfEvenCents (coreOf sd ed desc ci data).total)) ∧
      csvTotalAmount (tithing start endQ desc rate ci "csv" data) =
        some (fmtCents (halfEvenCents (coreOf sd ed desc ci data).total))) ∧
    (coreOf ⟨2025, 9, 1⟩ ⟨2025, 9, 30⟩ "PAY" true "09/15/2025,0.125,*,,PAY\n").total = 1 / 8 ∧
    jsonTotal (tithing "2025-09-01" "2025-09-30" "PAY" (1 / 10) true "json"
        "09/15/2025,0.125,*,,PAY\n") = some "0.12" ∧
    fmtCents (halfUpCents (1 / 8 : ℚ)) = "0.13" ∧
    ("0.12" : String) ≠ "0.13" := by
  refine ⟨fun start endQ desc rate ci data sd ed hs he hlt hne => ⟨?_, ?_⟩,
    by decide, by decide, by decide, by decide⟩
  · simp only [tithing, hs, he, if_neg hlt, if_neg hne]
    rw [if_neg (show ¬ ("json" : String) = "csv" by decide)]
    simp [jsonTotal, pyFormat2f]
  · simp only [tithing, hs, he, if_neg hlt, if_neg hne]
    simp only [if_true]
    simp [csvTotalAmount, pyFormat2f]

/-- C10, witness at the tie scenario (single deposit of 0.125). -/
theorem claim10_total_half_even_witness :
    jsonTotal (tithing "2025-09-01" "2025-09-30" "PAY" (1 / 10) true "json"
        "09/15/2025,0.125,*,,PAY\n") =
      some (fmtCents (halfEvenCents
        (coreOf ⟨2025, 9, 1⟩ ⟨2025, 9, 30⟩ "PAY" true "09/15/2025,0.125,*,,PAY\n").total)) :=
  ((claim10_total_half_even.1 "2025-09-01" "2025-09-30" "PAY" (1 / 10) true
    "09/15/2025,0.125,*,,PAY\n" ⟨2025, 9, 1⟩ ⟨2025, 9, 30⟩
    (by decide) (by decide) (by decide) (by decide))).1

/-- C3, counterexample: for the row with amount text `"1.046"` at rate 0.10
the CSV report's per-row contribution is `"0.11"` (computed from the 2-decimal
display string `"1.05"`), while round-half-up of the row's own amount times
the rate, `half_up(1.046 × 0.10)`, is `"0.10"`. -/
theorem claim3_counterexample :
    csvDataRows (tithing "2025-09-01" "2025-09-30" "PAY" (1 / 10) true "csv"
        "09/15/2025,1.046,*,,PAY\n") = some [["2025-09-15", "1.05", "PAY", "0.11"]] ∧
    parse_decimal (some "1.046") = .ok (1046 / 1000) ∧
    fmtCents (halfUpCents ((1046 / 1000 : ℚ) * (1 / 10))) = "0.10" ∧
    ("0.11" : String) ≠ "0.10" := by
  decide

/-- C3, amended: each CSV data row is computed from that row alone
(independently of the total and of the other rows), but the per-row
contribution is round-half-up of `rate` times the row's **displayed**
2-decimal amount (the half-even rendering of the row's amount), not of the
raw amount itself; the two agree whenever the amount has at most 2 decimals. -/
theorem claim3_per_row_from_display :
    ∀ (start endQ desc : String) (rate : ℚ) (ci : Bool) (data : String) (sd ed : PyDate),
      parseYMD start = some sd → parseYMD endQ = some ed →
      ¬ ed.key < sd.key → data ≠ "" →
      csvDataRows (tithing start endQ desc rate ci "csv" data) =
        some ((iter_csv_rows (csvReader (stripBOM data))).filterMap
          (perRowModel ⟨sd, ed, needleOf desc ci, ci⟩ rate)) := by
  intro start endQ desc rate ci data sd ed hs he hlt hne
  simp only [tithing, hs, he, if_neg hlt, if_neg hne]
  simp only [if_true]
  simp only [csvDataRows, Option.some.injEq]
  rw [coreOf, tithingCore_matches, List.map_filterMap]
  apply List.filterMap_congr
  intro p _
  cases hd : parse_date (dateField p.2) with
  | none => simp [matchRec, perRowModel, hd]
  | some d =>
    by_cases hr : sd.key ≤ d.key ∧ d.key ≤ ed.key
    · cases ha : parse_decimal (some (amountField p.2)) with
      | error detail => simp [matchRec, perRowModel, hd, hr, ha]
      | ok a =>
        by_cases hz : a ≤ 0
        · simp [matchRec, perRowModel, hd, hr, ha, hz]
        · by_cases hc : containsList (needleOf desc ci).data
              (hayOf ci (descField p.2)).data = true
          · have hpos : (0 : ℚ) < a := not_le.mp hz
            have hrt := pyDecimal_fmtCents_int (halfEvenCents a)
              (halfEvenCents_nonneg a hpos.le)
            simp [matchRec, perRowModel, hd, hr, ha, hz, hc, csvRowOf, pyFormat2f, hrt,
              halfEvenCents_cents, compute_tithe]
          · simp [matchRec, perRowModel, hd, hr, ha, hz, hc]
    · simp [matchRec, perRowModel, hd, hr]

/-- C3, witness at the counterexample's input. -/
theorem claim3_per_row_from_display_witness :
    csvDataRows (tithing "2025-09-01" "2025-09-30" "PAY" (1 / 10) true "csv"
        "09/15/2025,1.046,*,,PAY\n") =
      some ((iter_csv_rows (csvReader (stripBOM "09/15/2025,1.046,*,,PAY\n"))).filterMap
        (perRowModel ⟨⟨2025, 9, 1⟩, ⟨2025, 9, 30⟩, needleOf "PAY" true, true⟩ (1 / 10))) :=
  claim3_per_row_from_display "2025-09-01" "2025-09-30" "PAY" (1 / 10) true
    "09/15/2025,1.046,*,,PAY\n" ⟨2025, 9, 1⟩ ⟨2025, 9, 30⟩
    (by decide) (by decide) (by decide) (by decide)

end Tithing
